import Mathlib

/-!
Verification development for the versionwatch multi-source collection
pipeline.  The Rust source under crates/ is shallowly embedded: pure
functions become Lean functions, network fetches become explicit inputs
(the already-decoded pages / HTTP statuses / response bodies), and
fallible code returns Except.  Rust machine integers are modelled as
Nat / Int with explicit wrapping where a cast occurs.
-/

/-! ### Generic three-way comparison machinery

Rust compares semantic versions with Ord::cmp; we mirror that with
Ordering-valued comparators and prove the few order facts needed for
the max-by-comparator selection in the tag collector. -/

def natCmp (a b : Nat) : Ordering :=
  if a < b then .lt else if a = b then .eq else .gt

theorem natCmp_lt_iff (a b : Nat) : natCmp a b = .lt ↔ a < b := by
  unfold natCmp
  by_cases h1 : a < b
  · simp [h1]
  · by_cases h2 : a = b <;> simp [h1, h2]

theorem natCmp_eq_iff (a b : Nat) : natCmp a b = .eq ↔ a = b := by
  unfold natCmp
  by_cases h1 : a < b
  · simp [h1]; omega
  · by_cases h2 : a = b <;> simp [h1, h2]

theorem natCmp_gt_iff (a b : Nat) : natCmp a b = .gt ↔ b < a := by
  unfold natCmp
  by_cases h1 : a < b
  · simp [h1]; omega
  · by_cases h2 : a = b <;> simp [h1, h2] <;> omega

theorem natCmp_swap (a b : Nat) : natCmp b a = (natCmp a b).swap := by
  rcases h : natCmp a b with _ | _ | _
  · rw [natCmp_lt_iff] at h
    exact (natCmp_gt_iff b a).2 h
  · rw [natCmp_eq_iff] at h
    subst h
    exact (natCmp_eq_iff a a).2 rfl
  · rw [natCmp_gt_iff] at h
    exact (natCmp_lt_iff b a).2 h

theorem natCmp_trans_lt (a b c : Nat) :
    natCmp a b = .lt → natCmp b c = .lt → natCmp a c = .lt := by
  simp only [natCmp_lt_iff]
  omega

/-- Lexicographic comparison of lists by an element comparator:
shorter-is-smaller when one list is a proper head of the other.  This is
exactly how the semver crate orders pre-release identifier lists and how
Rust byte slices (str contents) compare. -/
def lexListCmp (c : α → α → Ordering) : List α → List α → Ordering
  | [], [] => .eq
  | [], _ :: _ => .lt
  | _ :: _, [] => .gt
  | a :: as, b :: bs =>
    match c a b with
    | .eq => lexListCmp c as bs
    | o => o

theorem lexListCmp_eq_iff (c : α → α → Ordering)
    (hc : ∀ x y, c x y = .eq ↔ x = y) :
    ∀ xs ys, lexListCmp c xs ys = .eq ↔ xs = ys := by
  intro xs
  induction xs with
  | nil => intro ys; cases ys <;> simp [lexListCmp]
  | cons a as ih =>
    intro ys
    cases ys with
    | nil => simp [lexListCmp]
    | cons b bs =>
      simp only [lexListCmp]
      rcases h : c a b with _ | _ | _
      · constructor
        · intro habs; simp at habs
        · rintro ⟨rfl, rfl⟩
          rw [(hc a a).2 rfl] at h; cases h
      · have hab : a = b := (hc a b).1 h
        subst hab
        simpa using ih bs
      · constructor
        · intro habs; simp at habs
        · rintro ⟨rfl, rfl⟩
          rw [(hc a a).2 rfl] at h; cases h

theorem lexListCmp_swap (c : α → α → Ordering)
    (hs : ∀ x y, c y x = (c x y).swap) :
    ∀ xs ys, lexListCmp c ys xs = (lexListCmp c xs ys).swap := by
  intro xs
  induction xs with
  | nil => intro ys; cases ys <;> simp [lexListCmp, Ordering.swap]
  | cons a as ih =>
    intro ys
    cases ys with
    | nil => simp [lexListCmp, Ordering.swap]
    | cons b bs =>
      simp only [lexListCmp, hs a b]
      rcases h : c a b with _ | _ | _ <;>
        simp [Ordering.swap, h, ih bs]

theorem lexListCmp_trans_lt (c : α → α → Ordering)
    (hc : ∀ x y, c x y = .eq ↔ x = y)
    (ht : ∀ x y z, c x y = .lt → c y z = .lt → c x z = .lt) :
    ∀ xs ys zs, lexListCmp c xs ys = .lt → lexListCmp c ys zs = .lt →
      lexListCmp c xs zs = .lt := by
  intro xs
  induction xs with
  | nil =>
    intro ys zs h1 h2
    cases ys with
    | nil => exact h2
    | cons b bs =>
      cases zs with
      | nil => simp [lexListCmp] at h2
      | cons z zs' => simp [lexListCmp]
  | cons a as ih =>
    intro ys zs h1 h2
    cases ys with
    | nil => simp [lexListCmp] at h1
    | cons b bs =>
      cases zs with
      | nil => simp [lexListCmp] at h2
      | cons z zs' =>
        simp only [lexListCmp] at h1 h2 ⊢
        rcases hab : c a b with _ | _ | _
        · rcases hbz : c b z with _ | _ | _
          · simp [ht a b z hab hbz]
          · have hbz' : b = z := (hc b z).1 hbz
            subst hbz'
            simp [hab]
          · simp only [hbz] at h2
            exact absurd h2 (by simp)
        · have hab' : a = b := (hc a b).1 hab
          subst hab'
          simp only [hab] at h1
          rcases hbz : c a z with _ | _ | _
          · simp [hbz]
          · have hbz' : a = z := (hc a z).1 hbz
            subst hbz'
            simp only [hbz] at h2 ⊢
            exact ih bs zs' h1 h2
          · simp only [hbz] at h2
            exact absurd h2 (by simp)
        · simp only [hab] at h1
          exact absurd h1 (by simp)

/-! ### Character / string comparison (Rust str Ord, byte order on ASCII) -/

def charCmp (a b : Char) : Ordering := natCmp a.toNat b.toNat

theorem charCmp_eq_iff (a b : Char) : charCmp a b = .eq ↔ a = b := by
  unfold charCmp
  rw [natCmp_eq_iff]
  constructor
  · intro h
    exact Char.ext (UInt32.ext h)
  · intro h
    rw [h]

theorem charCmp_swap (a b : Char) : charCmp b a = (charCmp a b).swap :=
  natCmp_swap a.toNat b.toNat

theorem charCmp_trans_lt (a b c : Char) :
    charCmp a b = .lt → charCmp b c = .lt → charCmp a c = .lt :=
  natCmp_trans_lt a.toNat b.toNat c.toNat

/-- Comparison of Rust strings: byte-wise lexicographic order; on the
ASCII identifiers handled here this equals codepoint order. -/
def strCmp (a b : String) : Ordering := lexListCmp charCmp a.data b.data

theorem strCmp_eq_iff (a b : String) : strCmp a b = .eq ↔ a = b := by
  unfold strCmp
  rw [lexListCmp_eq_iff charCmp charCmp_eq_iff]
  constructor
  · intro h
    exact String.ext h
  · intro h
    rw [h]

theorem strCmp_swap (a b : String) : strCmp b a = (strCmp a b).swap :=
  lexListCmp_swap charCmp charCmp_swap a.data b.data

theorem strCmp_trans_lt (a b c : String) :
    strCmp a b = .lt → strCmp b c = .lt → strCmp a c = .lt :=
  lexListCmp_trans_lt charCmp charCmp_eq_iff charCmp_trans_lt a.data b.data c.data

/-! ### Rust max_by (Iterator::max_by keeps the LAST maximal element) -/

def maxByFold (c : α → α → Ordering) (a : α) (l : List α) : α :=
  l.foldl (fun x y => if c x y = .gt then x else y) a

/-- Rust Iterator::max_by: none on an empty iterator, otherwise a fold
preferring the later element on non-Greater comparisons. -/
def rustMaxBy (c : α → α → Ordering) : List α → Option α
  | [] => none
  | a :: t => some (maxByFold c a t)

theorem maxByFold_mem (c : α → α → Ordering) :
    ∀ (l : List α) (a : α), maxByFold c a l = a ∨ maxByFold c a l ∈ l := by
  intro l
  induction l with
  | nil => intro a; left; rfl
  | cons b t ih =>
    intro a
    have hstep : maxByFold c a (b :: t)
        = maxByFold c (if c a b = .gt then a else b) t := rfl
    rw [hstep]
    rcases ih (if c a b = .gt then a else b) with h | h
    · rw [h]
      split
      · left; rfl
      · right; simp
    · right; simp [h]

theorem maxByFold_ge (c : α → α → Ordering)
    (hA : ∀ x y, c x y = .gt → c y x ≠ .gt)
    (hT : ∀ x y z, c x y ≠ .gt → c y z ≠ .gt → c x z ≠ .gt)
    (hR : ∀ x, c x x ≠ .gt) :
    ∀ (l : List α) (a z : α), (z = a ∨ z ∈ l) → c z (maxByFold c a l) ≠ .gt := by
  intro l
  induction l with
  | nil =>
    intro a z hz
    rcases hz with rfl | h
    · exact hR z
    · cases h
  | cons b t ih =>
    intro a z hz
    have hstep : maxByFold c a (b :: t)
        = maxByFold c (if c a b = .gt then a else b) t := rfl
    rw [hstep]
    by_cases hab : c a b = .gt
    · rw [if_pos hab]
      rcases hz with rfl | hz
      · exact ih z z (Or.inl rfl)
      · rcases List.mem_cons.1 hz with rfl | hz
        · exact hT z a _ (hA a z hab) (ih a a (Or.inl rfl))
        · exact ih a z (Or.inr hz)
    · rw [if_neg hab]
      rcases hz with rfl | hz
      · exact hT z b _ hab (ih b b (Or.inl rfl))
      · rcases List.mem_cons.1 hz with rfl | hz
        · exact ih z z (Or.inl rfl)
        · exact ih b z (Or.inr hz)

/-! ### Rust string primitives used by the collectors -/

/-- Rust strip_prefix composed with the "replace only on Some" idiom of
clean_version: remove the prefix when present, otherwise unchanged. -/
def stripPreL (p s : List Char) : List Char :=
  if p.isPrefixOf s then s.drop p.length else s

/-- Rust strip_suffix composed with the "replace only on Some" idiom. -/
def stripSufL (p s : List Char) : List Char :=
  if p.isSuffixOf s then s.take (s.length - p.length) else s

/-- Rust trim_start_matches with a single-character pattern: removes
every leading occurrence of the character. -/
def dropLeadL (c : Char) : List Char → List Char
  | a :: rest => if a = c then dropLeadL c rest else a :: rest
  | [] => []

/-- Fuel-driven core of trim_end_matches: one strip per fuel unit; a
fuel of the string length always suffices since every strip of a
non-empty pattern shortens the string. -/
def stripSufAllGo (p : List Char) : Nat → List Char → List Char
  | 0, s => s
  | fuel + 1, s =>
    if p.isSuffixOf s then stripSufAllGo p fuel (s.take (s.length - p.length))
    else s

/-- Rust trim_end_matches: repeatedly removes the suffix while present
(the patterns used in the code are non-empty literals; an empty pattern
leaves the string unchanged, as in Rust). -/
def stripSufAllL (p s : List Char) : List Char :=
  if p.isEmpty then s else stripSufAllGo p s.length s

theorem stripSufAllGo_not_suffix (p : List Char) (hp : p ≠ []) :
    ∀ (fuel : Nat) (s : List Char), s.length ≤ fuel →
      ¬ p.isSuffixOf (stripSufAllGo p fuel s) := by
  intro fuel
  induction fuel with
  | zero =>
    intro s hlen
    have hs0 : s = [] := by
      cases s with
      | nil => rfl
      | cons a t => simp at hlen
    subst hs0
    intro hc
    have h1 := (List.isSuffixOf_iff_suffix.mp hc).length_le
    have h2 : 0 < p.length := List.length_pos.2 hp
    simp only [stripSufAllGo, List.length_nil] at h1
    omega
  | succ n ih =>
    intro s hlen
    unfold stripSufAllGo
    by_cases h : p.isSuffixOf s
    · rw [if_pos h]
      have h1 : p.length ≤ s.length := (List.isSuffixOf_iff_suffix.mp h).length_le
      have h2 : 0 < p.length := List.length_pos.2 hp
      exact ih (s.take (s.length - p.length))
        (by simp only [List.length_take]; omega)
    · rw [if_neg h]
      exact h

theorem stripSufAllL_not_suffix (p : List Char) (hp : p ≠ []) (s : List Char) :
    ¬ p.isSuffixOf (stripSufAllL p s) := by
  unfold stripSufAllL
  rw [if_neg (by simp [List.isEmpty_iff, hp])]
  exact stripSufAllGo_not_suffix p hp s.length s le_rfl

/-! ### Semantic versions: model of the semver crate (SemVer 2.0.0)

Version::parse and Version cmp as used by the collectors.  The build
metadata tiebreaker of the crate Ord is not modelled (no collector and
no claim distinguishes versions differing only in build metadata). -/

inductive PreId where
  | num : Nat → PreId
  | alpha : String → PreId
deriving DecidableEq

structure SemVer where
  major : Nat
  minor : Nat
  patch : Nat
  pre : List PreId
  build : List String
deriving DecidableEq

def digitsVal (l : List Char) : Nat :=
  l.foldl (fun n c => n * 10 + (c.toNat - 48)) 0

/-- Numeric component of the version core: decimal digits, no leading
zero, parsed into u64 (overflow is a parse error in the crate). -/
def parseNumPart (l : List Char) : Option Nat :=
  if l = [] then none
  else if !l.all Char.isDigit then none
  else if l.head? = some '0' ∧ 1 < l.length then none
  else if digitsVal l < 18446744073709551616 then some (digitsVal l)
  else none

/-- One pre-release identifier: non-empty, alphanumeric or hyphen;
all-digit identifiers are numeric and must not have a leading zero. -/
def classifyPreId (l : List Char) : Option PreId :=
  if l = [] then none
  else if !l.all (fun c => c.isAlphanum || c = '-') then none
  else if l.all Char.isDigit then
    if l.head? = some '0' ∧ 1 < l.length then none
    else some (.num (digitsVal l))
  else some (.alpha ⟨l⟩)

/-- One build identifier: non-empty, alphanumeric or hyphen (leading
zeros permitted). -/
def classifyBuildId (l : List Char) : Option String :=
  if l = [] then none
  else if l.all (fun c => c.isAlphanum || c = '-') then some ⟨l⟩
  else none

/-- major.minor.patch with the remaining characters. -/
def parseVerCore (l : List Char) : Option (Nat × Nat × Nat × List Char) :=
  let s1 := l.span Char.isDigit
  match s1.2 with
  | '.' :: r2 =>
    let s2 := r2.span Char.isDigit
    match s2.2 with
    | '.' :: r4 =>
      let s3 := r4.span Char.isDigit
      match parseNumPart s1.1, parseNumPart s2.1, parseNumPart s3.1 with
      | some a, some b, some c => some (a, b, c, s3.2)
      | _, _, _ => none
    | _ => none
  | _ => none

/-- Model of semver::Version::parse. -/
def semverParse (s : String) : Option SemVer :=
  match parseVerCore s.data with
  | none => none
  | some (a, b, c, rest) =>
    match rest with
    | [] => some ⟨a, b, c, [], []⟩
    | '-' :: r =>
      let sp := r.span (fun ch => ch ≠ '+')
      match (sp.1.splitOn '.').mapM classifyPreId with
      | none => none
      | some pids =>
        match sp.2 with
        | [] => some ⟨a, b, c, pids, []⟩
        | '+' :: br =>
          match (br.splitOn '.').mapM classifyBuildId with
          | none => none
          | some bids => some ⟨a, b, c, pids, bids⟩
        | _ => none
    | '+' :: br =>
      match (br.splitOn '.').mapM classifyBuildId with
      | none => none
      | some bids => some ⟨a, b, c, [], bids⟩
    | _ => none

def preIdStr : PreId → String
  | .num n => toString n
  | .alpha s => s

/-- Model of the Display implementation for semver::Version. -/
def verToString (v : SemVer) : String :=
  toString v.major ++ "." ++ toString v.minor ++ "." ++ toString v.patch
  ++ (if v.pre = [] then "" else "-" ++ String.intercalate "." (v.pre.map preIdStr))
  ++ (if v.build = [] then "" else "+" ++ String.intercalate "." v.build)

/-! ### Ordering on semantic versions (semver crate Ord) -/

def preIdCmp : PreId → PreId → Ordering
  | .num a, .num b => natCmp a b
  | .num _, .alpha _ => .lt
  | .alpha _, .num _ => .gt
  | .alpha a, .alpha b => strCmp a b

theorem preIdCmp_eq_iff : ∀ x y, preIdCmp x y = .eq ↔ x = y := by
  intro x y
  cases x <;> cases y <;> simp [preIdCmp, natCmp_eq_iff, strCmp_eq_iff]

theorem preIdCmp_swap : ∀ x y, preIdCmp y x = (preIdCmp x y).swap := by
  intro x y
  cases x <;> cases y
  · exact natCmp_swap _ _
  · rfl
  · rfl
  · exact strCmp_swap _ _

theorem preIdCmp_trans_lt :
    ∀ x y z, preIdCmp x y = .lt → preIdCmp y z = .lt → preIdCmp x z = .lt := by
  intro x y z h1 h2
  cases x <;> cases y <;> cases z <;>
    simp only [preIdCmp] at h1 h2 ⊢ <;>
    first
      | exact natCmp_trans_lt _ _ _ h1 h2
      | exact strCmp_trans_lt _ _ _ h1 h2
      | rfl
      | exact absurd h1 (by decide)
      | exact absurd h2 (by decide)

/-- Release versions compare above pre-release versions of the same
numeric core: rank 1 for an empty pre-release list, 0 otherwise. -/
def preRank (l : List PreId) : Nat := if l = [] then 1 else 0

/-- One component of the ordering key of a version: the numeric fields
and the pre-release-emptiness rank are Nats, the pre-release identifier
list is compared identifier-wise. -/
inductive SvKeyElem where
  | n : Nat → SvKeyElem
  | p : List PreId → SvKeyElem
deriving DecidableEq

def elemCmp : SvKeyElem → SvKeyElem → Ordering
  | .n a, .n b => natCmp a b
  | .n _, .p _ => .lt
  | .p _, .n _ => .gt
  | .p a, .p b => lexListCmp preIdCmp a b

theorem elemCmp_eq_iff : ∀ x y, elemCmp x y = .eq ↔ x = y := by
  intro x y
  cases x <;> cases y <;>
    simp [elemCmp, natCmp_eq_iff, lexListCmp_eq_iff preIdCmp preIdCmp_eq_iff]

theorem elemCmp_swap : ∀ x y, elemCmp y x = (elemCmp x y).swap := by
  intro x y
  cases x <;> cases y
  · exact natCmp_swap _ _
  · rfl
  · rfl
  · exact lexListCmp_swap preIdCmp preIdCmp_swap _ _

theorem elemCmp_trans_lt :
    ∀ x y z, elemCmp x y = .lt → elemCmp y z = .lt → elemCmp x z = .lt := by
  intro x y z h1 h2
  cases x <;> cases y <;> cases z <;>
    simp only [elemCmp] at h1 h2 ⊢ <;>
    first
      | exact natCmp_trans_lt _ _ _ h1 h2
      | exact lexListCmp_trans_lt preIdCmp preIdCmp_eq_iff preIdCmp_trans_lt _ _ _ h1 h2
      | rfl
      | exact absurd h1 (by decide)
      | exact absurd h2 (by decide)

/-- The ordering key of a version: (major, minor, patch, empty-pre rank,
pre-release identifiers), compared lexicographically.  This is the
semver precedence order implemented by the crate: numeric core first,
then any release above any pre-release, then the identifier lists
(numeric below alphanumeric, numerics by value, alphanumerics in ASCII
order, a strict prefix below its extension). -/
def svKey (v : SemVer) : List SvKeyElem :=
  [.n v.major, .n v.minor, .n v.patch, .n (preRank v.pre), .p v.pre]

/-- Model of Ord::cmp on semver::Version (build metadata tiebreaker
omitted; see the section comment). -/
def svCmp (a b : SemVer) : Ordering := lexListCmp elemCmp (svKey a) (svKey b)

theorem svCmp_swap (a b : SemVer) : svCmp b a = (svCmp a b).swap :=
  lexListCmp_swap elemCmp elemCmp_swap (svKey a) (svKey b)

theorem svCmp_trans_lt (a b c : SemVer) :
    svCmp a b = .lt → svCmp b c = .lt → svCmp a c = .lt :=
  lexListCmp_trans_lt elemCmp elemCmp_eq_iff elemCmp_trans_lt _ _ _

theorem svCmp_key_eq (a b : SemVer) : svCmp a b = .eq ↔ svKey a = svKey b :=
  lexListCmp_eq_iff elemCmp elemCmp_eq_iff _ _

theorem svCmp_self (a : SemVer) : svCmp a a = .eq :=
  (svCmp_key_eq a a).2 rfl

theorem svCmp_gt_asymm (a b : SemVer) : svCmp a b = .gt → svCmp b a ≠ .gt := by
  intro h
  rw [svCmp_swap, h]
  simp [Ordering.swap]

theorem svCmp_negt_trans (a b c : SemVer) :
    svCmp a b ≠ .gt → svCmp b c ≠ .gt → svCmp a c ≠ .gt := by
  intro h1 h2
  rcases o1 : svCmp a b with _ | _ | _
  · rcases o2 : svCmp b c with _ | _ | _
    · rw [svCmp_trans_lt a b c o1 o2]
      simp
    · have hk : svKey b = svKey c := (svCmp_key_eq b c).1 o2
      unfold svCmp
      rw [← hk]
      rw [show lexListCmp elemCmp (svKey a) (svKey b) = svCmp a b from rfl, o1]
      simp
    · exact absurd o2 h2
  · have hk : svKey a = svKey b := (svCmp_key_eq a b).1 o1
    unfold svCmp
    rw [hk]
    exact h2
  · exact absurd o1 h1

theorem svCmp_refl_negt (a : SemVer) : svCmp a a ≠ .gt := by
  rw [svCmp_self]
  simp

/-! ### The collect crate error type (crates/versionwatch-collect/src/lib.rs)

Model of versionwatch_collect::Error.  The transparent wrapper variants
carry external error values; they are modelled by their rendered
messages.  The Io variant is named IoE (the source name is reserved
here).  Note the enum has NO Forbidden variant. -/

inductive CollectError where
  | NotFound
  | RateLimited : String → CollectError
  | Config : String → CollectError
  | SemVer : String → CollectError
  | Reqwest : String → CollectError
  | SerdeYaml : String → CollectError
  | SerdeJson : String → CollectError
  | Rss : String → CollectError
  | IoE : String → CollectError
  | Utf8 : String → CollectError
  | Other : String → CollectError
  | InvalidToken
  | Polars : String → CollectError
deriving DecidableEq

def errIsRateLimited : CollectError → Bool
  | .RateLimited _ => true
  | _ => false

/-! ### Version cleaning (versionwatch-config VersionCleaning and
GitHubCollector::clean_version) -/

/-- versionwatch_config::VersionCleaning; the fields model trim_prefix
and trim_suffix. -/
structure VersionCleaning where
  trimPre : Option String
  trimSuf : Option String
deriving DecidableEq

/-- serde Default for VersionCleaning: both rules absent. -/
def defaultCleaning : VersionCleaning := ⟨none, none⟩

/-- GitHubCollector::clean_version: strip the configured prefix when
present, then the configured suffix when present, then every leading
v character (trim_start_matches). -/
def cleanVersion (c : VersionCleaning) (s : String) : String :=
  let s1 : String := match c.trimPre with
    | some p => ⟨stripPreL p.data s.data⟩
    | none => s
  let s2 : String := match c.trimSuf with
    | some p => ⟨stripSufL p.data s1.data⟩
    | none => s1
  ⟨dropLeadL 'v' s2.data⟩

/-! ### GitHub collector result rows (the df! single-row frames) -/

structure GhRelease where
  name : String
  tagName : String
  prerelease : Bool
  draft : Bool
  htmlUrl : String
  publishedAt : String
deriving DecidableEq

structure GhTag where
  name : String
deriving DecidableEq

/-- The columns of the single-row frame built by the GitHub collector
(in the order of the df! call). -/
structure SVRow where
  name : String
  currentVersion : String
  latestVersion : String
  latestLtsVersion : Option String
  isLts : Bool
  eolDate : Option Int
  releaseNotesUrl : Option String
  cveCount : Int
deriving DecidableEq

/-- GitHubCollector::collect_from_releases, after the fetch: picks the
first non-prerelease non-draft release, cleans its tag name (no
semantic-version parse happens on this path), and emits the row. -/
def collectFromReleases (nm : String) (c : VersionCleaning)
    (releases : List GhRelease) : Except CollectError SVRow :=
  match releases.find? (fun r => !r.prerelease && !r.draft) with
  | none => .error .NotFound
  | some r =>
    .ok ⟨nm, "", cleanVersion c r.tagName, none, false, none, some r.htmlUrl, 0⟩

/-- Version::parse(tag.name.trim_start_matches of v) filtered to
non-prerelease, paired with the tag (the filter_map closure of
collect_from_tags). -/
def tagParsed (t : GhTag) : Option (SemVer × GhTag) :=
  match semverParse ⟨dropLeadL 'v' t.name.data⟩ with
  | some v => if v.pre = [] then some (v, t) else none
  | none => none

def pairCmp (p q : SemVer × GhTag) : Ordering := svCmp p.1 q.1

/-- GitHubCollector::collect_from_tags, after the fetch. -/
def collectFromTags (nm repo : String) (c : VersionCleaning)
    (tags : List GhTag) : Except CollectError SVRow :=
  if tags = [] then .error .NotFound
  else
    match rustMaxBy pairCmp (tags.filterMap tagParsed) with
    | none =>
      .error (.Other "No stable tags found. All tags appear to be pre-releases.")
    | some pr =>
      .ok ⟨nm, "", cleanVersion c pr.2.name, none, false, none,
        some ("https://github.com/" ++ repo ++ "/releases/tag/" ++ pr.2.name), 0⟩

/-! ### HTTP status handling in GitHubCollector::fetch -/

def pad2 (n : Nat) : String := if n < 10 then "0" ++ toString n else toString n

def pad4 (n : Nat) : String :=
  if n < 10 then "000" ++ toString n
  else if n < 100 then "00" ++ toString n
  else if n < 1000 then "0" ++ toString n
  else toString n

/-- Proleptic Gregorian civil date (year, month, day) from days since
1970-01-01; the standard civil-from-days computation used by chrono. -/
def civilFromDays (z0 : Int) : Int × Nat × Nat :=
  let z := z0 + 719468
  let era := z.fdiv 146097
  let doe := (z - era * 146097).toNat
  let yoe := (doe - doe / 1460 + doe / 36524 - doe / 146096) / 365
  let doy := doe - (365 * yoe + yoe / 4 - yoe / 100)
  let mp := (5 * doy + 2) / 153
  let d := doy - (153 * mp + 2) / 5 + 1
  let m := if mp < 10 then mp + 3 else mp - 9
  (era * 400 + yoe + (if m ≤ 2 then 1 else 0), m, d)

/-- chrono DateTime formatted with the pattern
%Y-%m-%d %H:%M:%S UTC used by the 429 branch. -/
def fmtTimestamp (ts : Int) : String :=
  let days := ts.fdiv 86400
  let sod := (ts - days * 86400).toNat
  let c := civilFromDays days
  let ystr := if c.1 < 0 then "-" ++ pad4 (-c.1).toNat else pad4 c.1.toNat
  ystr ++ "-" ++ pad2 c.2.1 ++ "-" ++ pad2 c.2.2 ++ " " ++
    pad2 (sod / 3600) ++ ":" ++ pad2 (sod % 3600 / 60) ++ ":" ++
    pad2 (sod % 60) ++ " UTC"

/-- Digit-run characters with an optional leading plus sign, as the
Rust unsigned FromStr accepts. -/
def unsignedDigits (s : String) : List Char :=
  match s.data with
  | '+' :: rest => rest
  | l => l

/-- Rust u64 string parsing: digits (optional leading plus), erroring
on overflow. -/
def parseU64 (s : String) : Option Nat :=
  let l := unsignedDigits s
  if l ≠ [] ∧ l.all Char.isDigit ∧ digitsVal l < 18446744073709551616 then
    some (digitsVal l)
  else none

/-- Wrapping cast of a u64 value to i64 (Rust: reset as i64). -/
def wrap64 (n : Nat) : Int := ((n : Int) + 2 ^ 63) % 2 ^ 64 - 2 ^ 63

/-- Validity range of chrono DateTime::from_timestamp (model boundary
for the external chrono crate; every input exercised by a claim is far
inside this range). -/
def tsInRange (t : Int) : Bool := -8334601228800 ≤ t ∧ t ≤ 8210266876799

/-- Display of http::StatusCode: numeric code plus canonical reason
phrase (model boundary for the external http crate; no claim exercises
this branch). -/
def statusText (n : Nat) : String :=
  toString n ++ (if n = 404 then " Not Found"
    else if n = 500 then " Internal Server Error" else "")

/-- The non-success branch of GitHubCollector::fetch (lines 173-207):
classification of an HTTP error status.  resetHeader is the raw
x-ratelimit-reset header value; now models Utc::now().timestamp(),
reached only in the out-of-range fallback of the reset rendering. -/
def githubStatusError (status : Nat) (hasToken : Bool)
    (resetHeader : Option String) (now : Nat) : CollectError :=
  if status = 403 then
    .Other (if hasToken then
      "GitHub API returned 403 Forbidden. The token may be invalid or lack permissions."
    else
      "GitHub API returned 403 Forbidden. A GITHUB_TOKEN may be required for this repository.")
  else if status = 429 then
    let reset := (resetHeader.bind parseU64).getD 0
    let resetTime :=
      if tsInRange (wrap64 reset) then fmtTimestamp (wrap64 reset)
      else toString (reset - now) ++ " seconds from now"
    .RateLimited ("GitHub API rate limit exceeded. Try again at " ++ resetTime ++ ".")
  else
    .Other ("GitHub API returned unexpected status: " ++ statusText status)

/-! ### Pagination in GitHubCollector::fetch -/

def isSuccessStatus (n : Nat) : Bool := 200 ≤ n && n < 300

/-- One HTTP response in the paginated fetch: status, the
x-ratelimit-reset header, whether a Link header with a next relation is
present, and the decoded items of the page body. -/
structure GhPage (α : Type) where
  status : Nat
  reset : Option String
  hasNext : Bool
  items : List α
deriving DecidableEq

/-- The while-let loop of GitHubCollector::fetch: the pages list holds
the successive responses the server would return; an exhausted list
models a next link pointing nowhere (never reached for a faithful
server).  The Bool of the result records whether the MAX_PAGES=10
ceiling was hit (the truncation warning). -/
def githubFetchGo (hasToken : Bool) (now : Nat) :
    List (GhPage α) → Nat → List α → Except CollectError (List α × Bool)
  | [], _, acc => .ok (acc, false)
  | p :: ps, count, acc =>
    if 10 ≤ count then .ok (acc, true)
    else if !isSuccessStatus p.status then
      .error (githubStatusError p.status hasToken p.reset now)
    else if p.hasNext then
      githubFetchGo hasToken now ps (count + 1) (acc ++ p.items)
    else
      .ok (acc ++ p.items, false)

def githubFetch (hasToken : Bool) (now : Nat) (pages : List (GhPage α)) :
    Except CollectError (List α × Bool) :=
  githubFetchGo hasToken now pages 0 []

/-! ### Pagination in EclipseTemurinCollector::collect -/

/-- The Temurin page loop: requests page 0, 1, 2, ... and stops only on
an empty response; the list models the versions arrays of successive
responses (an exhausted list models an empty body).  There is no page
ceiling. -/
def temurinFetchAll : List (List α) → List α
  | [] => []
  | p :: ps => if p.isEmpty then [] else p ++ temurinFetchAll ps

/-- Number of non-empty pages the Temurin loop consumes. -/
def temurinPages : List (List α) → Nat
  | [] => 0
  | p :: ps => if p.isEmpty then 0 else 1 + temurinPages ps

/-! ### ProductCycle and the four-column frames
(versionwatch-core ProductCycle; versionwatch-collect lib.rs
product_cycles_to_dataframe / dataframe_to_product_cycles).
chrono NaiveDate is modelled by its signed day offset from 1970-01-01:
subtracting the epoch yields that offset, and epoch plus a day duration
yields the date with that offset.  chrono dates always satisfy
|offset| <= 96000000 (the representable year range). -/

structure ProductCycle where
  name : String
  releaseDate : Option Int
  eolDate : Option Int
  lts : Bool
deriving DecidableEq

/-- Wrapping cast of an i64 day count to i32 (Rust: num_days() as i32). -/
def wrap32 (z : Int) : Int := (z + 2 ^ 31) % 2 ^ 32 - 2 ^ 31

/-- The frame built by product_cycles_to_dataframe: columns name,
release_date, eol_date, lts (dates as days since 1970-01-01, i32). -/
structure CycleFrame where
  names : List String
  releaseDates : List (Option Int)
  eolDates : List (Option Int)
  ltsFlags : List Bool
deriving DecidableEq

def product_cycles_to_dataframe (cycles : List ProductCycle) : CycleFrame :=
  ⟨cycles.map (·.name),
   cycles.map (fun c => c.releaseDate.map (fun d => wrap32 (d - 0))),
   cycles.map (fun c => c.eolDate.map (fun d => wrap32 (d - 0))),
   cycles.map (·.lts)⟩

/-- The index loop of dataframe_to_product_cycles over the four columns
(which the encoder produces with equal lengths); epoch + days is the
day offset itself in the date model. -/
def decodeCycles :
    List String → List (Option Int) → List (Option Int) → List Bool →
    List ProductCycle
  | n :: ns, r :: rs, e :: es, l :: ls =>
    ⟨n, r.map (fun days => 0 + days), e.map (fun days => 0 + days), l⟩
      :: decodeCycles ns rs es ls
  | _, _, _, _ => []

/-- Polars error surface reached by the embedded pipeline. -/
inductive PErr where
  | shapeMismatch
deriving DecidableEq

/-- dataframe_to_product_cycles (column lookups on a CycleFrame always
succeed; the PolarsResult is Ok on every frame of this shape). -/
def dataframe_to_product_cycles (df : CycleFrame) :
    Except PErr (List ProductCycle) :=
  .ok (decodeCycles df.names df.releaseDates df.eolDates df.ltsFlags)

/-! ### The Swift collector (swift.rs): regex, process_tags, and the
provider-fallback collect -/

/-- End part of the provider regexes: the optional hyphen-anything
group is end-anchored, so a match continues only into a hyphen or the
end of the string. -/
def tailOk : List Char → Bool
  | [] => true
  | '-' :: _ => true
  | _ => false

/-- Backtracking match of the version-core group with the anchored
optional tail at exactly this position; threeParts selects the mysql
shape with a mandatory third component over the swift shape with an
optional one.  Greedy digit runs never require backtracking here since
every continuation begins with a non-digit, so the only choice point is
the optional third component. -/
def matchVerAt (threeParts : Bool) (s : List Char) : Option (List Char) :=
  let t1 := s.span Char.isDigit
  if t1.1.isEmpty then none else
  match t1.2 with
  | '.' :: r2 =>
    let t2 := r2.span Char.isDigit
    if t2.1.isEmpty then none else
    let twoOk := !threeParts && tailOk t2.2
    match t2.2 with
    | '.' :: r4 =>
      let t3 := r4.span Char.isDigit
      if !t3.1.isEmpty && tailOk t3.2 then
        some (t1.1 ++ '.' :: t2.1 ++ '.' :: t3.1)
      else if twoOk then some (t1.1 ++ '.' :: t2.1) else none
    | _ => if twoOk then some (t1.1 ++ '.' :: t2.1) else none
  | _ => none

/-- Optional literal prefix alternatives of the regex, tried in the
greedy order (longest alternative first, empty alternative last). -/
def matchWithPres (pres : List String) (threeParts : Bool) (s : List Char) :
    Option (List Char) :=
  match pres with
  | [] => none
  | p :: rest =>
    if p.data.isPrefixOf s then
      match matchVerAt threeParts (s.drop p.data.length) with
      | some cap => some cap
      | none => matchWithPres rest threeParts s
    else matchWithPres rest threeParts s

/-- Leftmost match: start positions tried left to right (regex crate
leftmost semantics). -/
def scanCapture (pres : List String) (threeParts : Bool) :
    List Char → Option String
  | [] => none
  | a :: rest =>
    match matchWithPres pres threeParts (a :: rest) with
    | some cap => some (⟨cap⟩ : String)
    | none => scanCapture pres threeParts rest

/-- Group 1 of the swift regex: an optional swift- literal, then
digits.digits with an optional .digits, then the anchored optional
hyphen tail. -/
def swiftCapture (s : String) : Option String :=
  scanCapture ["swift-", ""] false s.data

def countDots (s : String) : Nat := s.data.countP (fun c => c = '.')

/-- One iteration of the filter_map in SwiftCollector::process_tags,
threading the seen-set and the emitted cycles. -/
def swiftStep (st : List SemVer × List ProductCycle) (tag : String) :
    List SemVer × List ProductCycle :=
  match swiftCapture tag with
  | none => st
  | some verStr =>
    let normalized := if countDots verStr = 1 then verStr ++ ".0" else verStr
    match semverParse normalized with
    | none => st
    | some v =>
      if v.major < 5 then st
      else if v ∈ st.1 then st
      else (st.1 ++ [v], st.2 ++ [⟨verToString v, none, none, false⟩])

def swiftProcessTags (tags : List String) : List ProductCycle :=
  (tags.foldl swiftStep ([], [])).2

inductive SwiftProvider where
  | dockerHub
  | github
  | knownList
deriving DecidableEq

/-- The hard-coded final fallback list of SwiftCollector::collect. -/
def swiftKnownVersions : List String :=
  ["6.0.3", "6.0.2", "6.0.1", "6.0.0", "5.10.1", "5.10.0", "5.9.2", "5.9.1",
   "5.9.0", "5.8.1", "5.8.0", "5.7.3", "5.7.2", "5.7.1", "5.7.0", "5.6.3",
   "5.6.2", "5.6.1", "5.6.0", "5.5.3", "5.5.2", "5.5.1", "5.5.0", "5.4.3",
   "5.4.2", "5.4.1", "5.4.0", "5.3.3", "5.3.2", "5.3.1", "5.3.0"]

def swiftKnownCycles : List ProductCycle :=
  swiftKnownVersions.filterMap (fun s =>
    (semverParse s).map (fun v =>
      (⟨verToString v, none, none, false⟩ : ProductCycle)))

/-- The GitHub leg and final fallback of SwiftCollector::collect. -/
def swiftCollectGh (githubRes : Except CollectError (List String)) :
    Except CollectError (CycleFrame × SwiftProvider) :=
  match githubRes with
  | .ok tags =>
    let cycles := swiftProcessTags tags
    if !cycles.isEmpty then
      .ok (product_cycles_to_dataframe cycles, .github)
    else .ok (product_cycles_to_dataframe swiftKnownCycles, .knownList)
  | .error _ => .ok (product_cycles_to_dataframe swiftKnownCycles, .knownList)

/-- SwiftCollector::collect with the outcomes of the two fetchers as
inputs (Docker Hub is tried first); the provider that produced the
returned frame is reported alongside it. -/
def swiftCollect (dockerRes githubRes : Except CollectError (List String)) :
    Except CollectError (CycleFrame × SwiftProvider) :=
  match dockerRes with
  | .ok tags =>
    let cycles := swiftProcessTags tags
    if !cycles.isEmpty then
      .ok (product_cycles_to_dataframe cycles, .dockerHub)
    else swiftCollectGh githubRes
  | .error _ => swiftCollectGh githubRes

/-! ### MySqlCollector::fetch_tags HTTP handling (mysql.rs 59-73) -/

/-- Given the GitHub response status and decoded body, and the outcome
fetch_docker_tags would produce; the Bool records whether the Docker
Hub fallback was invoked. -/
def mysqlFetchTags (status : Nat) (body : List String)
    (dockerRes : Except CollectError (List String)) :
    Except CollectError (List String) × Bool :=
  if isSuccessStatus status then (.ok body, false)
  else if status = 403 ∨ status = 429 then (dockerRes, true)
  else
    (.error (.Other ("GitHub API returned unexpected status: " ++ statusText status)),
     false)

/-! ### Go and Node collectors (go.rs, node.rs), after their fetches -/

/-- HashMap get on a key (iteration order of the Rust HashMap does not
matter for lookups; an association list stands in for the map). -/
def lookupAssoc (m : List (String × Int)) (k : String) : Option Int :=
  (m.find? (fun e => e.1 = k)).map (fun e => e.2)

/-- Rust u32 string parsing: digits (optional leading plus), erroring
on overflow. -/
def parseU32 (s : String) : Option Nat :=
  let l := unsignedDigits s
  if l ≠ [] ∧ l.all Char.isDigit ∧ digitsVal l < 4294967296 then
    some (digitsVal l)
  else none

/-- The EOL computation of GoCollector::collect: parts of the version
string, minor + 2 on the major.minor key into the major-release map. -/
def goEolFor (majorDates : List (String × Int)) (verStr : String) :
    Option Int :=
  let parts := verStr.splitOn "."
  if 2 ≤ parts.length then
    match parseU32 (parts.getD 1 "") with
    | some minorNum =>
      lookupAssoc majorDates (parts.getD 0 "" ++ "." ++ toString (minorNum + 2))
    | none => none
  else none

/-- Rust str::contains with a literal pattern: substring containment. -/
def containsSeq (needle : List Char) : List Char → Bool
  | [] => needle.isEmpty
  | a :: rest => needle.isPrefixOf (a :: rest) || containsSeq needle rest

/-- The cycles built by GoCollector::collect from the scanned release
map (rc versions filtered out). -/
def goCycles (releaseDates majorDates : List (String × Int)) :
    List ProductCycle :=
  (releaseDates.filter (fun e => !(containsSeq "rc".data e.1.data))).map
    (fun e => ⟨e.1, some e.2, goEolFor majorDates e.1, false⟩)

/-- GoCollector::collect after the scan: an empty cycle list is mapped
to the NotFound error (go.rs 76-78). -/
def goCollect (releaseDates majorDates : List (String × Int)) :
    Except CollectError CycleFrame :=
  if (goCycles releaseDates majorDates).isEmpty then .error .NotFound
  else .ok (product_cycles_to_dataframe (goCycles releaseDates majorDates))

/-- One decoded entry of the Node release index: the version string,
the release date, and whether the lts JSON field is a string (an LTS
codename) rather than false. -/
structure NodeVersion where
  version : String
  date : Int
  ltsIsString : Bool
deriving DecidableEq

/-- The map closure of NodeCollector::collect. -/
def nodeCycles (releases : List NodeVersion) (eolMap : List (String × Int)) :
    List ProductCycle :=
  releases.map (fun v =>
    let versionStr : String := ⟨dropLeadL 'v' v.version.data⟩
    let majorKey := "v" ++ (versionStr.splitOn ".").getD 0 ""
    ⟨versionStr, some v.date, lookupAssoc eolMap majorKey, v.ltsIsString⟩)

/-- NodeCollector::collect after the fetches: the cycles go straight to
the frame with no emptiness check (node.rs 52-68). -/
def nodeCollect (releases : List NodeVersion) (eolMap : List (String × Int)) :
    Except CollectError CycleFrame :=
  .ok (product_cycles_to_dataframe (nodeCycles releases eolMap))

/-! ### The orchestration in main.rs: join loop, vstack, no-data exit -/

/-- A polars DataFrame for the purposes of the aggregation step: its
schema (column names and dtypes, compared as a whole) and its rows. -/
structure DF (α : Type) where
  schema : List String
  rows : List α
deriving DecidableEq

/-- DataFrame::vstack_mut: appends the rows of the second frame;
mismatched schemas are a ShapeMismatch error. -/
def vstackDf (a b : DF α) : Except PErr (DF α) :=
  if a.schema = b.schema then .ok ⟨a.schema, a.rows ++ b.rows⟩
  else .error .shapeMismatch

def vstackAll (d : DF α) (rest : List (DF α)) : Except PErr (DF α) :=
  rest.foldlM vstackDf d

inductive RunReport (α : Type) where
  | noData
  | completed : DF α → List String → RunReport α
deriving DecidableEq

/-- The rows the persistence loop upserts, one by one: none at all on
the no-data early return, the rows of the stacked frame otherwise. -/
def writesOf : RunReport α → List α
  | .noData => []
  | .completed df _ => df.rows

/-- main.rs lines 88-114: drain the join handles in order into the
collected frames and the failed target names, return early with no
writes when nothing was collected, otherwise vstack all frames (the ?
on vstack_mut aborts the run on a polars error). -/
def runPipeline (results : List (String × Except CollectError (DF α))) :
    Except PErr (RunReport α) :=
  let dfs := results.filterMap (fun r => r.2.toOption)
  let failed := results.filterMap (fun r =>
    match r.2 with
    | .ok _ => none
    | .error _ => some r.1)
  match dfs with
  | [] => .ok .noData
  | d :: rest =>
    match vstackAll d rest with
    | .ok df => .ok (.completed df failed)
    | .error e => .error e

/-! ### The cross-source cleaning pass (main.rs 116-140) -/

/-- The name and latest_lts_version columns of one row of the stacked
frame (the two columns the cleaning expression reads and writes). -/
structure LtsRow where
  name : String
  latestLtsVersion : Option String
deriving DecidableEq

/-- The when/then/otherwise expression: rows whose name equals
eclipse-temurin get trim_end_matches of -LTS then of .LTS applied to
latest_lts_version (null stays null); every other row is unchanged. -/
def cleanLtsPass (rows : List LtsRow) : List LtsRow :=
  rows.map (fun r =>
    if r.name = "eclipse-temurin" then
      ⟨r.name, r.latestLtsVersion.map (fun v =>
        (⟨stripSufAllL ".LTS".data (stripSufAllL "-LTS".data v.data)⟩ : String))⟩
    else r)

/-! ### Supporting lemmas -/

theorem wrap32_small (d : Int) (h : d.natAbs ≤ 96000000) : wrap32 d = d := by
  unfold wrap32
  omega

theorem dropLeadL_head (c : Char) :
    ∀ l : List Char, (dropLeadL c l).head? ≠ some c := by
  intro l
  induction l with
  | nil => simp [dropLeadL]
  | cons a rest ih =>
    by_cases h : a = c
    · simpa [dropLeadL, h] using ih
    · simp [dropLeadL, h]

theorem decode_encode (cycles : List ProductCycle)
    (hb : ∀ c ∈ cycles, (∀ d ∈ c.releaseDate, d.natAbs ≤ 96000000) ∧
      (∀ d ∈ c.eolDate, d.natAbs ≤ 96000000)) :
    decodeCycles (cycles.map (fun c => c.name))
      (cycles.map (fun c => c.releaseDate.map (fun d => wrap32 (d - 0))))
      (cycles.map (fun c => c.eolDate.map (fun d => wrap32 (d - 0))))
      (cycles.map (fun c => c.lts)) = cycles := by
  induction cycles with
  | nil => rfl
  | cons c rest ih =>
    simp only [List.map_cons, decodeCycles]
    have hr := (hb c (List.mem_cons_self c rest)).1
    have he := (hb c (List.mem_cons_self c rest)).2
    congr 1
    · obtain ⟨nm, rd, ed, lt⟩ := c
      cases rd with
      | none =>
        cases ed with
        | none => rfl
        | some d =>
          have hd : d.natAbs ≤ 96000000 := he d rfl
          simp only [Option.map_some', Option.map_none']
          rw [wrap32_small (d - 0) (by omega)]
          simp
      | some d =>
        have hd : d.natAbs ≤ 96000000 := hr d rfl
        cases ed with
        | none =>
          simp only [Option.map_some', Option.map_none']
          rw [wrap32_small (d - 0) (by omega)]
          simp
        | some d2 =>
          have hd2 : d2.natAbs ≤ 96000000 := he d2 rfl
          simp only [Option.map_some']
          rw [wrap32_small (d - 0) (by omega), wrap32_small (d2 - 0) (by omega)]
          simp
    · exact ih (fun x hx => hb x (List.mem_cons_of_mem c hx))

theorem vstackAll_uniform {α : Type} (s : List String) :
    ∀ (rest : List (DF α)) (d : DF α), d.schema = s →
      (∀ b ∈ rest, b.schema = s) →
      vstackAll d rest = .ok ⟨s, d.rows ++ (rest.map (fun b => b.rows)).flatten⟩ := by
  intro rest
  induction rest with
  | nil =>
    intro d hd _
    obtain ⟨sc, rows⟩ := d
    simp only at hd
    subst hd
    unfold vstackAll
    simp [List.foldlM, pure, Except.pure]
  | cons b t ih =>
    intro d hd hall
    have hb : b.schema = s := hall b (List.mem_cons_self b t)
    have hstep : vstackDf d b = .ok ⟨s, d.rows ++ b.rows⟩ := by
      unfold vstackDf
      rw [if_pos (by rw [hd, hb])]
      rw [hd]
    have h2 := ih ⟨s, d.rows ++ b.rows⟩ rfl
      (fun x hx => hall x (List.mem_cons_of_mem b hx))
    unfold vstackAll
    rw [List.foldlM_cons, hstep]
    unfold vstackAll at h2
    show List.foldlM vstackDf (⟨s, d.rows ++ b.rows⟩ : DF α) t = _
    rw [h2]
    simp [List.append_assoc]

theorem githubFetchGo_ceiling {α : Type} (tok : Bool) (now : Nat) :
    ∀ (pages : List (GhPage α)) (count : Nat) (acc : List α),
      (∀ p ∈ pages, isSuccessStatus p.status = true) →
      (∀ p ∈ pages, p.hasNext = true) →
      count ≤ 10 → 10 - count < pages.length →
      githubFetchGo tok now pages count acc =
        .ok (acc ++ ((pages.take (10 - count)).map (fun p => p.items)).flatten,
          true) := by
  intro pages
  induction pages with
  | nil =>
    intro count acc _ _ hc hl
    simp at hl
  | cons p ps ih =>
    intro count acc hsucc hnext hc hl
    by_cases h10 : 10 ≤ count
    · have hceq : count = 10 := by omega
      subst hceq
      simp [githubFetchGo]
    · have hs := hsucc p (List.mem_cons_self p ps)
      have hn := hnext p (List.mem_cons_self p ps)
      simp only [githubFetchGo, if_neg h10, hs, hn, Bool.not_true, if_true]
      have hrec := ih (count + 1) (acc ++ p.items)
        (fun x hx => hsucc x (List.mem_cons_of_mem p hx))
        (fun x hx => hnext x (List.mem_cons_of_mem p hx))
        (by omega)
        (by simp only [List.length_cons] at hl; omega)
      rw [if_neg (by simp)]
      rw [hrec]
      have hsplit : 10 - count = (10 - (count + 1)) + 1 := by omega
      rw [hsplit, List.take_succ_cons]
      simp [List.append_assoc]

theorem temurin_no_ceiling {α : Type} :
    ∀ (ps : List (List α)), (∀ p ∈ ps, p ≠ []) →
      temurinFetchAll ps = ps.flatten ∧ temurinPages ps = ps.length := by
  intro ps
  induction ps with
  | nil => intro _; exact ⟨rfl, rfl⟩
  | cons p t ih =>
    intro h
    have hp : p ≠ [] := h p (List.mem_cons_self p t)
    have hpe : p.isEmpty = false := by
      cases p with
      | nil => exact absurd rfl hp
      | cons a l => rfl
    obtain ⟨h1, h2⟩ := ih (fun x hx => h x (List.mem_cons_of_mem p hx))
    constructor
    · simp [temurinFetchAll, hpe, h1]
    · simp [temurinPages, hpe, h2]
      omega

deriving instance DecidableEq for Except

/-! ### The claims -/

/-- C10: round-trip of the cycle/table conversions: for every vector of
ProductCycle records (dates in the chrono-representable range, as every
chrono NaiveDate is), converting with product_cycles_to_dataframe and
back with dataframe_to_product_cycles yields the original vector:
names, LTS flags and the optional release/EOL dates (via the
days-since-1970-01-01 encoding) are preserved, in order. -/
theorem c10_cycle_frame_roundtrip (cycles : List ProductCycle)
    (hb : ∀ c ∈ cycles, (∀ d ∈ c.releaseDate, d.natAbs ≤ 96000000) ∧
      (∀ d ∈ c.eolDate, d.natAbs ≤ 96000000)) :
    dataframe_to_product_cycles (product_cycles_to_dataframe cycles) =
      .ok cycles := by
  unfold dataframe_to_product_cycles product_cycles_to_dataframe
  simp only
  rw [decode_encode cycles hb]

/-- Witness for C10 at a concrete two-record vector. -/
theorem c10_witness :
    (∀ c ∈ [(⟨"node", some 19000, none, true⟩ : ProductCycle),
            ⟨"go", none, some 20000, false⟩],
      (∀ d ∈ c.releaseDate, d.natAbs ≤ 96000000) ∧
      (∀ d ∈ c.eolDate, d.natAbs ≤ 96000000)) ∧
    dataframe_to_product_cycles (product_cycles_to_dataframe
      [(⟨"node", some 19000, none, true⟩ : ProductCycle),
       ⟨"go", none, some 20000, false⟩]) =
      .ok [(⟨"node", some 19000, none, true⟩ : ProductCycle),
           ⟨"go", none, some 20000, false⟩] :=
  ⟨by decide, c10_cycle_frame_roundtrip _ (by decide)⟩

/-- C8: if every target failed, the pipeline returns the no-data
report (a non-error early exit), performs no upserts at all, and that
report is distinct from every completed-cycle report. -/
theorem c8_noop_on_total_failure {α : Type}
    (results : List (String × Except CollectError (DF α)))
    (h : ∀ r ∈ results, ∃ e, r.2 = .error e) :
    runPipeline results = .ok .noData ∧
    writesOf (RunReport.noData : RunReport α) = [] ∧
    ∀ (df : DF α) (f : List String),
      (RunReport.noData : RunReport α) ≠ .completed df f := by
  refine ⟨?_, rfl, fun df f hc => by cases hc⟩
  have hdfs : results.filterMap (fun r => r.2.toOption) = [] := by
    rw [List.filterMap_eq_nil_iff]
    intro r hr
    obtain ⟨e, he⟩ := h r hr
    rw [he]
    rfl
  unfold runPipeline
  simp only [hdfs]

/-- Witness for C8: a run where both targets failed. -/
theorem c8_witness :
    (∀ r ∈ [("node", (.error .NotFound : Except CollectError (DF String))),
            ("go", .error (.Other "boom"))], ∃ e, r.2 = .error e) ∧
    runPipeline [("node", (.error .NotFound : Except CollectError (DF String))),
                 ("go", .error (.Other "boom"))] = .ok .noData :=
  ⟨by intro r hr
      fin_cases hr
      · exact ⟨.NotFound, rfl⟩
      · exact ⟨.Other "boom", rfl⟩,
   (c8_noop_on_total_failure _ (by
      intro r hr
      fin_cases hr
      · exact ⟨.NotFound, rfl⟩
      · exact ⟨.Other "boom", rfl⟩)).1⟩

/-- C5 counterexample: the Temurin paginated fetch has no page-count
ceiling: on a source with 12 non-empty pages it consumes all 12 pages
(the claim says every paginated fetch stops at the hard ceiling of 10);
and the GitHub fetch does not stop at an empty page: it continues to
the next page when a Link next relation is present. -/
theorem c5_counterexample :
    temurinPages (List.replicate 12 [(0 : Nat)]) = 12 ∧
    10 < temurinPages (List.replicate 12 [(0 : Nat)]) ∧
    temurinFetchAll (List.replicate 12 [(0 : Nat)]) = List.replicate 12 0 ∧
    githubFetch false 0
      [⟨200, none, true, ([] : List Nat)⟩, ⟨200, none, false, [7]⟩] =
      .ok ([7], false) := by decide

/-- C5 amended: the GitHub fetch stops at the next-link and at the
hard 10-page ceiling, and reaching the ceiling is not an error: it
returns the ten accumulated pages with the truncation flag; the
Temurin fetch stops exactly at the first empty page, with no ceiling
(it consumes every page of an all-non-empty source). -/
theorem c5_pagination_bound {α : Type} :
    (∀ (tok : Bool) (now : Nat) (pages : List (GhPage α)),
      (∀ p ∈ pages, isSuccessStatus p.status = true) →
      (∀ p ∈ pages, p.hasNext = true) →
      10 < pages.length →
      githubFetch tok now pages =
        .ok (((pages.take 10).map (fun p => p.items)).flatten, true)) ∧
    (∀ (ps : List (List α)), (∀ p ∈ ps, p ≠ []) →
      temurinFetchAll ps = ps.flatten ∧ temurinPages ps = ps.length) := by
  constructor
  · intro tok now pages hs hn hl
    have h := githubFetchGo_ceiling tok now pages 0 [] hs hn (by omega) (by omega)
    unfold githubFetch
    rw [h]
    simp
  · exact temurin_no_ceiling

/-- Witness for C5 at a source with 11 pages. -/
theorem c5_witness :
    ((∀ p ∈ List.replicate 11 (⟨200, none, true, [3]⟩ : GhPage Nat),
        isSuccessStatus p.status = true) ∧
      (∀ p ∈ List.replicate 11 (⟨200, none, true, [3]⟩ : GhPage Nat),
        p.hasNext = true) ∧
      10 < (List.replicate 11 (⟨200, none, true, [3]⟩ : GhPage Nat)).length) ∧
    githubFetch false 0 (List.replicate 11 (⟨200, none, true, [3]⟩ : GhPage Nat)) =
      .ok ((((List.replicate 11 (⟨200, none, true, [3]⟩ : GhPage Nat)).take 10).map
        (fun p => p.items)).flatten, true) :=
  ⟨⟨by decide, by decide, by decide⟩,
   c5_pagination_bound.1 false 0 _ (by decide) (by decide) (by decide)⟩

/-- C7 counterexample: the Node collector maps an empty upstream result
to a successful empty frame, not to the NotFound classification the
claim requires for every source strategy. -/
theorem c7_counterexample :
    nodeCollect [] [] = .ok ⟨[], [], [], []⟩ ∧
    nodeCollect [] [] ≠ .error CollectError.NotFound ∧
    (⟨[], [], [], []⟩ : CycleFrame).names.length = 0 := by decide

/-- C7 amended: the GitHub tags path and the Go collector map an empty
candidate set to the NotFound error; the Node collector performs no
emptiness check and returns a successful frame with one row per
upstream release (zero rows included). -/
theorem c7_empty_result_mapping :
    (∀ (nm repo : String) (c : VersionCleaning),
      collectFromTags nm repo c [] = .error .NotFound) ∧
    (∀ rd md, goCycles rd md = [] → goCollect rd md = .error .NotFound) ∧
    (∀ rd md, goCycles rd md ≠ [] →
      goCollect rd md = .ok (product_cycles_to_dataframe (goCycles rd md))) ∧
    (∀ rel eol, nodeCollect rel eol =
        .ok (product_cycles_to_dataframe (nodeCycles rel eol)) ∧
      (product_cycles_to_dataframe (nodeCycles rel eol)).names.length =
        rel.length) := by
  refine ⟨fun nm repo c => rfl, ?_, ?_, ?_⟩
  · intro rd md h
    unfold goCollect
    rw [if_pos (by simp [List.isEmpty_iff, h])]
  · intro rd md h
    unfold goCollect
    rw [if_neg (by simp [List.isEmpty_iff, h])]
  · intro rel eol
    refine ⟨rfl, ?_⟩
    unfold product_cycles_to_dataframe nodeCycles
    simp

/-- Witness for C7: Go with one scanned entry succeeds, with no entries
it is NotFound. -/
theorem c7_witness :
    goCycles [("1.22.1", 19000)] [] ≠ [] ∧
    goCollect [("1.22.1", 19000)] [] =
      .ok (product_cycles_to_dataframe (goCycles [("1.22.1", 19000)] [])) ∧
    goCycles [] [] = [] ∧
    goCollect [] [] = .error .NotFound :=
  ⟨by decide,
   c7_empty_result_mapping.2.2.1 [("1.22.1", 19000)] [] (by decide),
   by decide,
   c7_empty_result_mapping.2.1 [] [] (by decide)⟩

/-- C9 counterexample: a row from another source keeps its -LTS suffix
untouched: the aggregation cleanup is conditioned on the name column
equalling eclipse-temurin, not applied regardless of the row. -/
theorem c9_counterexample :
    cleanLtsPass [⟨"node", some "22.11.0-LTS"⟩] =
      [⟨"node", some "22.11.0-LTS"⟩] ∧
    (some "22.11.0-LTS" ≠ some "22.11.0") := by decide

/-- C9 amended: the aggregation cleanup strips the -LTS and .LTS
suffix literals from latest_lts_version only on rows whose name equals
eclipse-temurin; other rows pass through unchanged; on the
eclipse-temurin rows the result never retains a .LTS suffix. -/
theorem c9_lts_cleanup (rows : List LtsRow) :
    (cleanLtsPass rows).length = rows.length ∧
    (∀ r ∈ rows, r.name ≠ "eclipse-temurin" → r ∈ cleanLtsPass rows) ∧
    (∀ r ∈ cleanLtsPass rows, r.name = "eclipse-temurin" →
      ∀ w ∈ r.latestLtsVersion, ".LTS".data.isSuffixOf w.data = false) ∧
    cleanLtsPass [⟨"eclipse-temurin", some "21.0.1-LTS"⟩,
                  ⟨"eclipse-temurin", some "17.0.9.LTS"⟩] =
      [⟨"eclipse-temurin", some "21.0.1"⟩,
       ⟨"eclipse-temurin", some "17.0.9"⟩] := by
  refine ⟨by simp [cleanLtsPass], ?_, ?_, by decide⟩
  · intro r hr hne
    unfold cleanLtsPass
    exact List.mem_map.2 ⟨r, hr, by rw [if_neg hne]⟩
  · intro r hr hname w hw
    rcases List.mem_map.1 hr with ⟨orig, horig, heq⟩
    by_cases ho : orig.name = "eclipse-temurin"
    · rw [if_pos ho] at heq
      subst heq
      simp only [Option.mem_def] at hw
      rcases Option.map_eq_some'.1 hw with ⟨v, hv, hweq⟩
      subst hweq
      have hns := stripSufAllL_not_suffix ".LTS".data (by decide)
        (stripSufAllL "-LTS".data v.data)
      show (".LTS".data).isSuffixOf
        (stripSufAllL ".LTS".data (stripSufAllL "-LTS".data v.data)) = false
      exact Bool.eq_false_iff.mpr hns
    · rw [if_neg ho] at heq
      subst heq
      exact absurd hname ho

/-- C6 counterexample: an HTTP 403 response is classified Error::Other
with a token-hint message — the error enum has no Forbidden variant
and Other is not the rate-limit classification — contradicting the
claim that a 403 is classified as a retryable-via-fallback Forbidden
failure; only the 429 leg of the claim holds. -/
theorem c6_counterexample :
    githubStatusError 403 true none 0 =
      .Other "GitHub API returned 403 Forbidden. The token may be invalid or lack permissions." ∧
    errIsRateLimited (githubStatusError 403 true none 0) = false ∧
    errIsRateLimited (githubStatusError 429 true (some "0") 0) = true := by
  refine ⟨rfl, rfl, ?_⟩
  rfl

/-- C6 amended: a 429 response is classified RateLimited, carrying the
x-ratelimit-reset header value rendered as a human-readable timestamp;
a 403 response is classified Other with a token-hint message, which is
not a rate-limit classification (no Forbidden variant exists). -/
theorem c6_status_classification (tok : Bool) (hdr : Option String)
    (now r : Nat) (hparse : (hdr.bind parseU64).getD 0 = r)
    (hrange : tsInRange (wrap64 r) = true) :
    githubStatusError 429 tok hdr now =
      .RateLimited ("GitHub API rate limit exceeded. Try again at " ++
        fmtTimestamp (wrap64 r) ++ ".") ∧
    githubStatusError 403 true hdr now =
      .Other "GitHub API returned 403 Forbidden. The token may be invalid or lack permissions." ∧
    githubStatusError 403 false hdr now =
      .Other "GitHub API returned 403 Forbidden. A GITHUB_TOKEN may be required for this repository." ∧
    errIsRateLimited (githubStatusError 403 tok hdr now) = false := by
  refine ⟨?_, rfl, rfl, by cases tok <;> rfl⟩
  unfold githubStatusError
  rw [if_neg (by decide), if_pos rfl, hparse]
  simp [hrange]

/-- Witness for C6 at the header value 1760227200. -/
theorem c6_witness :
    ((((some "1760227200") : Option String).bind parseU64).getD 0 = 1760227200 ∧
      tsInRange (wrap64 1760227200) = true) ∧
    githubStatusError 429 true (some "1760227200") 0 =
      .RateLimited ("GitHub API rate limit exceeded. Try again at " ++
        fmtTimestamp (wrap64 1760227200) ++ ".") :=
  ⟨⟨by decide, by decide⟩,
   (c6_status_classification true (some "1760227200") 0 1760227200
      (by decide) (by decide)).1⟩

/-- C3 counterexample: the releases path performs no semantic-version
parse after cleaning: a tag that is not a version is emitted as the
latest_version rather than dropped, contradicting the
None-or-valid-semver contract. -/
theorem c3_counterexample :
    collectFromReleases "tool" defaultCleaning
        [⟨"rel", "banana", false, false, "https://example.com/r", "2024-01-01"⟩] =
      .ok ⟨"tool", "", "banana", none, false, none, some "https://example.com/r", 0⟩ ∧
    semverParse "banana" = none := by
  exact ⟨rfl, by decide⟩

/-- C3 amended: cleaning applies the prefix trim, then the suffix trim,
then the leading-v trim, and the cleaned string never starts with v;
the releases path emits the cleaned tag of the first non-prerelease
non-draft release verbatim — no semantic-version parse is applied, so
records that fail to parse are kept, not dropped — and errs with
NotFound only when no such release exists. -/
theorem c3_normalization (nm : String) (c : VersionCleaning)
    (releases : List GhRelease) :
    (releases.find? (fun r => !r.prerelease && !r.draft) = none →
      collectFromReleases nm c releases = .error .NotFound) ∧
    (∀ r, releases.find? (fun r => !r.prerelease && !r.draft) = some r →
      collectFromReleases nm c releases =
        .ok ⟨nm, "", cleanVersion c r.tagName, none, false, none,
          some r.htmlUrl, 0⟩) ∧
    (∀ t, (cleanVersion c t).data.head? ≠ some 'v') := by
  refine ⟨?_, ?_, ?_⟩
  · intro h
    unfold collectFromReleases
    rw [h]
  · intro r h
    unfold collectFromReleases
    rw [h]
  · intro t
    exact dropLeadL_head 'v' _

/-- Witness for C3: a v-prefixed tag is cleaned to a bare version. -/
theorem c3_witness :
    (List.find? (fun r => !r.prerelease && !r.draft)
        [(⟨"rel", "v1.2.3", false, false, "u", "d"⟩ : GhRelease)] =
      some ⟨"rel", "v1.2.3", false, false, "u", "d"⟩) ∧
    collectFromReleases "tool" defaultCleaning
        [⟨"rel", "v1.2.3", false, false, "u", "d"⟩] =
      .ok ⟨"tool", "", "1.2.3", none, false, none, some "u", 0⟩ := by
  refine ⟨by decide, ?_⟩
  have h := (c3_normalization "tool" defaultCleaning
      [⟨"rel", "v1.2.3", false, false, "u", "d"⟩]).2.1
    ⟨"rel", "v1.2.3", false, false, "u", "d"⟩ (by decide)
  rw [h]
  decide

theorem tagParsed_snd (u : GhTag) (p : SemVer × GhTag)
    (h : tagParsed u = some p) : p.2 = u := by
  unfold tagParsed at h
  rcases hp : semverParse ⟨dropLeadL 'v' u.name.data⟩ with _ | v
  · simp only [hp] at h
    cases h
  · simp only [hp] at h
    by_cases hpre : v.pre = []
    · rw [if_pos hpre] at h
      simp at h
      rw [← h]
    · rw [if_neg hpre] at h
      cases h

/-- C4: whenever at least one tag parses (after the leading-v trim of
this path) as a non-prerelease semantic version, the tag collector
succeeds, selecting a tag that parses as a version at least as high as
every other non-prerelease parse — tags that fail to parse are simply
ignored and never fail the collection — and the emitted latest_version
is the cleaned name of that tag; on the spec example the latest is
2.4.59. -/
theorem c4_latest_tag_selection (nm repo : String) (c : VersionCleaning)
    (tags : List GhTag) (t0 : GhTag) (v0 : SemVer)
    (h0 : t0 ∈ tags) (hp0 : tagParsed t0 = some (v0, t0)) :
    (∃ t v, t ∈ tags ∧ tagParsed t = some (v, t) ∧
      collectFromTags nm repo c tags =
        .ok ⟨nm, "", cleanVersion c t.name, none, false, none,
          some ("https://github.com/" ++ repo ++ "/releases/tag/" ++ t.name),
          0⟩ ∧
      (∀ u w, u ∈ tags → tagParsed u = some (w, u) → svCmp w v ≠ .gt)) ∧
    (collectFromTags "apache" "apache/httpd" defaultCleaning
        [⟨"v2.4.59"⟩, ⟨"v2.4.59-rc1"⟩, ⟨"v2.3.0"⟩]).map
      (fun row => row.latestVersion) = .ok "2.4.59" := by
  refine ⟨?_, by decide⟩
  have hA : ∀ x y : SemVer × GhTag, pairCmp x y = .gt → pairCmp y x ≠ .gt :=
    fun x y hxy => svCmp_gt_asymm x.1 y.1 hxy
  have hT : ∀ x y z : SemVer × GhTag,
      pairCmp x y ≠ .gt → pairCmp y z ≠ .gt → pairCmp x z ≠ .gt :=
    fun x y z => svCmp_negt_trans x.1 y.1 z.1
  have hR : ∀ x : SemVer × GhTag, pairCmp x x ≠ .gt :=
    fun x => svCmp_refl_negt x.1
  have hmem : (v0, t0) ∈ tags.filterMap tagParsed :=
    List.mem_filterMap.2 ⟨t0, h0, hp0⟩
  have hne : tags ≠ [] := by
    intro hc
    rw [hc] at h0
    cases h0
  rcases hL : tags.filterMap tagParsed with _ | ⟨a, rest⟩
  · rw [hL] at hmem
    cases hmem
  · have hmax : rustMaxBy pairCmp (tags.filterMap tagParsed) =
        some (maxByFold pairCmp a rest) := by
      rw [hL]
      rfl
    have hMmem : maxByFold pairCmp a rest ∈ tags.filterMap tagParsed := by
      rw [hL]
      rcases maxByFold_mem pairCmp rest a with h | h
      · rw [h]
        exact List.mem_cons_self a rest
      · exact List.mem_cons_of_mem a h
    rcases List.mem_filterMap.1 hMmem with ⟨u, hu, hpu⟩
    have husnd : (maxByFold pairCmp a rest).2 = u := tagParsed_snd u _ hpu
    refine ⟨u, (maxByFold pairCmp a rest).1, hu, ?_, ?_, ?_⟩
    · rw [← husnd] at hpu ⊢
      simpa using hpu
    · unfold collectFromTags
      rw [if_neg hne]
      simp only [hmax]
      rw [husnd]
    · intro u' w hu' hpw
      have hwmem : (w, u') ∈ tags.filterMap tagParsed :=
        List.mem_filterMap.2 ⟨u', hu', hpw⟩
      rw [hL] at hwmem
      have := maxByFold_ge pairCmp hA hT hR rest a (w, u')
        (by
          rcases List.mem_cons.1 hwmem with h | h
          · exact Or.inl h
          · exact Or.inr h)
      exact this

/-- Witness for C4 at the spec example tag list. -/
theorem c4_witness :
    ((⟨"v2.4.59"⟩ : GhTag) ∈
        [(⟨"v2.4.59"⟩ : GhTag), ⟨"v2.4.59-rc1"⟩, ⟨"v2.3.0"⟩] ∧
      tagParsed ⟨"v2.4.59"⟩ = some (⟨2, 4, 59, [], []⟩, ⟨"v2.4.59"⟩)) ∧
    (∃ t v, t ∈ [(⟨"v2.4.59"⟩ : GhTag), ⟨"v2.4.59-rc1"⟩, ⟨"v2.3.0"⟩] ∧
      tagParsed t = some (v, t) ∧
      collectFromTags "apache" "apache/httpd" defaultCleaning
          [⟨"v2.4.59"⟩, ⟨"v2.4.59-rc1"⟩, ⟨"v2.3.0"⟩] =
        .ok ⟨"apache", "", cleanVersion defaultCleaning t.name, none, false,
          none,
          some ("https://github.com/" ++ "apache/httpd" ++ "/releases/tag/" ++
            t.name), 0⟩ ∧
      (∀ u w, u ∈ [(⟨"v2.4.59"⟩ : GhTag), ⟨"v2.4.59-rc1"⟩, ⟨"v2.3.0"⟩] →
        tagParsed u = some (w, u) → svCmp w v ≠ .gt)) :=
  ⟨⟨by decide, by decide⟩,
   (c4_latest_tag_selection "apache" "apache/httpd" defaultCleaning
      [⟨"v2.4.59"⟩, ⟨"v2.4.59-rc1"⟩, ⟨"v2.3.0"⟩] ⟨"v2.4.59"⟩ ⟨2, 4, 59, [], []⟩
      (by decide) (by decide)).1⟩

/-- C2 counterexample: the Swift primary (Docker Hub) fails with a
transport error — a Transient-class failure, not RateLimited and not
Forbidden — yet the secondary GitHub strategy is invoked and its
result returned, where the claim requires such failures to propagate
immediately without trying a fallback. -/
theorem c2_counterexample :
    swiftCollect (.error (.Reqwest "connection reset by peer"))
        (.ok ["swift-5.9.1-RELEASE"]) =
      .ok (⟨["5.9.1"], [none], [none], [false]⟩, .github) ∧
    errIsRateLimited (.Reqwest "connection reset by peer") = false := by
  exact ⟨by decide, rfl⟩

/-- C2 amended: the status-level fallback of the MySQL fetcher switches
to Docker Hub exactly on HTTP 403 or 429 (other non-success statuses
propagate as errors with no fallback), returning the Docker Hub outcome
whatever it is; the Swift collector instead tries Docker Hub first,
escapes to GitHub on any failure or on an empty processed result, then
to a hard-coded list, so its collect never fails. -/
theorem c2_fallback_semantics :
    (∀ (status : Nat) (body : List String)
        (docker : Except CollectError (List String)),
      (mysqlFetchTags status body docker).2 = true ↔
        (isSuccessStatus status = false ∧ (status = 403 ∨ status = 429))) ∧
    (∀ body docker, mysqlFetchTags 403 body docker = (docker, true)) ∧
    (∀ body docker, mysqlFetchTags 429 body docker = (docker, true)) ∧
    (∀ status body docker, isSuccessStatus status = false → status ≠ 403 →
      status ≠ 429 →
      mysqlFetchTags status body docker =
        (.error (.Other ("GitHub API returned unexpected status: " ++
          statusText status)), false)) ∧
    (∀ tags g, swiftProcessTags tags ≠ [] →
      swiftCollect (.ok tags) g =
        .ok (product_cycles_to_dataframe (swiftProcessTags tags),
          .dockerHub)) ∧
    (∀ d g, ∃ frame prov, swiftCollect d g = .ok (frame, prov)) := by
  refine ⟨?_, fun body docker => rfl, fun body docker => rfl, ?_, ?_, ?_⟩
  · intro status body docker
    unfold mysqlFetchTags
    by_cases hs : isSuccessStatus status = true
    · rw [if_pos hs]
      simp [hs]
    · rw [if_neg hs]
      have hs' : isSuccessStatus status = false := Bool.eq_false_iff.mpr hs
      by_cases h43 : status = 403 ∨ status = 429
      · rw [if_pos h43]
        simp [h43, hs']
      · rw [if_neg h43]
        simp [h43]
  · intro status body docker hsf h403 h429
    unfold mysqlFetchTags
    rw [if_neg (by rw [hsf]; exact Bool.false_ne_true),
      if_neg (by rintro (h | h) <;> [exact h403 h; exact h429 h])]
  · intro tags g h
    have hne : (swiftProcessTags tags).isEmpty = false :=
      Bool.eq_false_iff.mpr (fun hc => h (List.isEmpty_iff.mp hc))
    unfold swiftCollect
    simp [hne]
  · intro d g
    rcases d with e | tags
    · rcases g with e2 | tags2
      · exact ⟨_, _, rfl⟩
      · by_cases h : (swiftProcessTags tags2).isEmpty
        · refine ⟨product_cycles_to_dataframe swiftKnownCycles, .knownList, ?_⟩
          unfold swiftCollect swiftCollectGh
          simp [h]
        · refine ⟨product_cycles_to_dataframe (swiftProcessTags tags2),
            .github, ?_⟩
          unfold swiftCollect swiftCollectGh
          simp [h]
    · by_cases h : (swiftProcessTags tags).isEmpty
      · rcases g with e2 | tags2
        · refine ⟨product_cycles_to_dataframe swiftKnownCycles, .knownList, ?_⟩
          unfold swiftCollect swiftCollectGh
          simp [h]
        · by_cases h2 : (swiftProcessTags tags2).isEmpty
          · refine ⟨product_cycles_to_dataframe swiftKnownCycles,
              .knownList, ?_⟩
            unfold swiftCollect swiftCollectGh
            simp [h, h2]
          · refine ⟨product_cycles_to_dataframe (swiftProcessTags tags2),
              .github, ?_⟩
            unfold swiftCollect swiftCollectGh
            simp [h, h2]
      · refine ⟨product_cycles_to_dataframe (swiftProcessTags tags),
          .dockerHub, ?_⟩
        unfold swiftCollect
        simp [h]

/-- Witness for C2: a 500 status propagates without fallback; a
non-empty Docker Hub result is returned by the Docker Hub leg. -/
theorem c2_witness :
    (isSuccessStatus 500 = false ∧ (500 : Nat) ≠ 403 ∧ (500 : Nat) ≠ 429 ∧
      swiftProcessTags ["5.9.1"] ≠ []) ∧
    mysqlFetchTags 500 [] (.ok []) =
      (.error (.Other ("GitHub API returned unexpected status: " ++
        statusText 500)), false) ∧
    swiftCollect (.ok ["5.9.1"]) (.error .NotFound) =
      .ok (product_cycles_to_dataframe (swiftProcessTags ["5.9.1"]),
        .dockerHub) :=
  ⟨⟨by decide, by decide, by decide, by decide⟩,
   c2_fallback_semantics.2.2.2.1 500 [] (.ok []) (by decide) (by decide)
     (by decide),
   c2_fallback_semantics.2.2.2.2.1 ["5.9.1"] (.error .NotFound) (by decide)⟩

/-- C1 counterexample: one of three targets fails, but the two
succeeded targets return frames with different schemas (the GitHub
8-column frame and the legacy 4-column cycle frame, exactly as the
collectors in main.rs produce), so vstack_mut errors and the whole run
aborts with a polars error instead of aggregating the survivors. -/
theorem c1_counterexample :
    runPipeline
      [("apache", .ok (⟨["name", "current_version", "latest_version",
          "latest_lts_version", "is_lts", "eol_date", "release_notes_url",
          "cve_count"], ["apache-row"]⟩ : DF String)),
       ("mysql", .error .NotFound),
       ("node", .ok ⟨["name", "release_date", "eol_date", "lts"],
          ["node-row"]⟩)] = .error PErr.shapeMismatch := by decide

/-- C1 amended: when exactly one target fails and all succeeded targets
produce frames of one common schema, the pipeline does not abort: the
collection loop records exactly that one failed name, and the stacked
output frame carries the rows of every succeeded target, in order. -/
theorem c1_fault_isolation {α : Type}
    (results : List (String × Except CollectError (DF α)))
    (s : List String) (failName : String)
    (hschema : ∀ r ∈ results, match r.2 with
      | .ok df => df.schema = s
      | .error _ => True)
    (hfail : results.filterMap (fun r =>
      match r.2 with
      | .ok _ => none
      | .error _ => some r.1) = [failName])
    (hsome : results.filterMap (fun r => r.2.toOption) ≠ []) :
    ∃ df : DF α, runPipeline results = .ok (.completed df [failName]) ∧
      df.schema = s ∧
      df.rows = ((results.filterMap (fun r => r.2.toOption)).map
        (fun d => d.rows)).flatten := by
  rcases hL : results.filterMap (fun r => r.2.toOption) with _ | ⟨d, rest⟩
  · exact absurd hL hsome
  · have hall : ∀ b ∈ d :: rest, b.schema = s := by
      intro b hb
      rw [← hL] at hb
      rcases List.mem_filterMap.1 hb with ⟨r, hr, hro⟩
      have hsch := hschema r hr
      rcases hrr : r.2 with e | df2
      · rw [hrr] at hro
        cases hro
      · rw [hrr] at hro hsch
        simp [Except.toOption] at hro
        rw [← hro]
        exact hsch
    have hd : d.schema = s := hall d (List.mem_cons_self d rest)
    have hrest : ∀ b ∈ rest, b.schema = s :=
      fun b hb => hall b (List.mem_cons_of_mem d hb)
    have hv := vstackAll_uniform s rest d hd hrest
    refine ⟨⟨s, d.rows ++ (rest.map (fun b => b.rows)).flatten⟩, ?_, rfl, ?_⟩
    · unfold runPipeline
      simp only [hL, hfail, hv]
    · rw [hL]
      simp

/-- Witness for C1: three targets, one failure, both survivors in the
output. -/
theorem c1_witness :
    ((∀ r ∈ ([("apache",
          .ok ⟨["name", "release_date", "eol_date", "lts"], ["ra"]⟩),
        ("mysql", .error .NotFound),
        ("node",
          .ok ⟨["name", "release_date", "eol_date", "lts"], ["rn"]⟩)] :
        List (String × Except CollectError (DF String))),
      match r.2 with
      | .ok df => df.schema = ["name", "release_date", "eol_date", "lts"]
      | .error _ => True) ∧
      ([("apache",
          .ok ⟨["name", "release_date", "eol_date", "lts"], ["ra"]⟩),
        ("mysql", .error .NotFound),
        ("node",
          .ok ⟨["name", "release_date", "eol_date", "lts"], ["rn"]⟩)] :
        List (String × Except CollectError (DF String))).filterMap
        (fun r => match r.2 with
          | .ok _ => none
          | .error _ => some r.1) = ["mysql"]) ∧
    ∃ df : DF String,
      runPipeline
        [("apache",
          .ok ⟨["name", "release_date", "eol_date", "lts"], ["ra"]⟩),
         ("mysql", .error .NotFound),
         ("node",
          .ok ⟨["name", "release_date", "eol_date", "lts"], ["rn"]⟩)] =
        .ok (.completed df ["mysql"]) ∧
      df.schema = ["name", "release_date", "eol_date", "lts"] ∧
      df.rows = ((([("apache",
          .ok ⟨["name", "release_date", "eol_date", "lts"], ["ra"]⟩),
        ("mysql", .error .NotFound),
        ("node",
          .ok ⟨["name", "release_date", "eol_date", "lts"], ["rn"]⟩)] :
        List (String × Except CollectError (DF String))).filterMap
          (fun r => r.2.toOption)).map (fun d => d.rows)).flatten :=
  ⟨⟨by intro r hr; fin_cases hr <;> trivial, by decide⟩,
   c1_fault_isolation
     ([("apache",
         .ok ⟨["name", "release_date", "eol_date", "lts"], ["ra"]⟩),
       ("mysql", .error .NotFound),
       ("node",
         .ok ⟨["name", "release_date", "eol_date", "lts"], ["rn"]⟩)] :
       List (String × Except CollectError (DF String)))
     ["name", "release_date", "eol_date", "lts"] "mysql"
     (by intro r hr; fin_cases hr <;> trivial) (by decide) (by decide)⟩

/-- Witness for C9: a non-eclipse-temurin row passes through the
cleanup unchanged. -/
theorem c9_witness :
    ((⟨"node", some "1-LTS"⟩ : LtsRow) ∈
        [(⟨"eclipse-temurin", some "21-LTS"⟩ : LtsRow),
          ⟨"node", some "1-LTS"⟩] ∧
      ("node" : String) ≠ "eclipse-temurin") ∧
    (⟨"node", some "1-LTS"⟩ : LtsRow) ∈
      cleanLtsPass [⟨"eclipse-temurin", some "21-LTS"⟩,
        ⟨"node", some "1-LTS"⟩] :=
  ⟨⟨by decide, by decide⟩,
   (c9_lts_cleanup [⟨"eclipse-temurin", some "21-LTS"⟩,
      ⟨"node", some "1-LTS"⟩]).2.1
     ⟨"node", some "1-LTS"⟩ (by decide) (by decide)⟩
